import Mathlib

/-!
A shallow embedding of `src/src/accumulation.rs` from the `safe-farming`
repository: the reward-accumulation ledger (`Accumulation` state, its
command handlers `add_account`, `accumulate`, `claim`, and the event
applier `apply`), together with theorems settling the specification
claims about it.

Modelling conventions:
* `AccountId` (an opaque public key in the source) is modelled as `Nat`.
* `Id` (`pub type Id = Vec<u8>`) is modelled as `List Nat`.
* `Money` (the `safe_nd::Money` collaborator, a `u64` amount of nanos with
  checked addition) is modelled as a natural number bounded by `u64Max`.
* `HashSet<Id>` is modelled as its membership function `Id → Bool`;
  `HashMap<AccountId, _>` as a lookup function `AccountId → Option _`.
  A `HashMap` passed as a distribution is modelled as an association list
  `List (AccountId × Money)`; where a claim depends on the map structure,
  distinctness of keys is an explicit hypothesis.
* The applier's `unwrap()` on a checked addition is modelled by making the
  applier return `Option Accumulation`, `none` standing for the panic.
-/

namespace SafeFarming

/-- The largest representable `u64` value; `safe_nd::Money` holds a `u64`. -/
def u64Max : Nat := 2 ^ 64 - 1

/-- Modelled from the spec: the monetary-amount collaborator (`safe_nd::Money`)
supplies a non-negative bounded amount with a zero constructor and checked
addition. Modelled as a natural number at most `u64Max`. -/
def Money := {n : Nat // n ≤ u64Max}

instance : DecidableEq Money :=
  inferInstanceAs (DecidableEq {n : Nat // n ≤ u64Max})

/-- `Money::zero()`. -/
def Money.zero : Money := ⟨0, Nat.zero_le _⟩

/-- Modelled from the spec: checked addition on `Money`, returning `none`
exactly when the mathematical sum exceeds the representable range. -/
def Money.checkedAdd (a b : Money) : Option Money :=
  if h : a.val + b.val ≤ u64Max then some ⟨a.val + b.val, h⟩ else none

/-- Modelled from the spec: the `CurrentAccumulation` record (the spec's
`AccountRecord`), defined outside `src/`: a balance together with an opaque
work counter. -/
structure CurrentAccumulation where
  amount : Money
  worked : Nat
deriving DecidableEq

/-- Modelled from the spec: `Default::default()` for `CurrentAccumulation`
is the zero-balance, zero-work record (used by the applier as the baseline
for accounts absent from the state). -/
def CurrentAccumulation.default : CurrentAccumulation :=
  { amount := Money.zero, worked := 0 }

/-- Modelled from the spec: `CurrentAccumulation::add` performs checked
addition on the balance, carrying the work counter along, and returns
`none` on overflow. -/
def CurrentAccumulation.add (acc : CurrentAccumulation) (amount : Money) :
    Option CurrentAccumulation :=
  (acc.amount.checkedAdd amount).map fun m => { amount := m, worked := acc.worked }

/-- Modelled from the spec: the error taxonomy of section 7. The source uses
the `safe_nd` error names `BalanceExists`, `DataExists`, `ExcessiveValue`
and `NoSuchKey` for these four cases respectively. -/
inductive Error where
  | AccountAlreadyExists
  | DuplicateSubmission
  | ExcessiveValue
  | NoSuchAccount
deriving DecidableEq

/-- Account identifier (an opaque, externally-issued public key). -/
abbrev AccountId := Nat

/-- `pub type Id = Vec<u8>`: the submission / de-duplication identifier. -/
abbrev Id := List Nat

/-- Work counter (opaque, externally supplied). -/
abbrev WorkCounter := Nat

/-- The `AccountAdded` event: carries the new account id and its initial
work counter. -/
structure AccountAdded where
  id : AccountId
  worked : WorkCounter
deriving DecidableEq

/-- The `AmountsAccumulated` event: carries the submission id and the full
distribution map (modelled as an association list). -/
structure AmountsAccumulated where
  id : Id
  distribution : List (AccountId × Money)
deriving DecidableEq

/-- The `AccumulatedClaimed` event: carries the account id and a snapshot of
its accumulated record. -/
structure AccumulatedClaimed where
  account : AccountId
  accumulated : CurrentAccumulation
deriving DecidableEq

/-- The closed set of accumulation events. -/
inductive AccumulationEvent where
  | AccountAdded (e : SafeFarming.AccountAdded)
  | AmountsAccumulated (e : SafeFarming.AmountsAccumulated)
  | AccumulatedClaimed (e : SafeFarming.AccumulatedClaimed)

/-- The ledger state: `idempotency: HashSet<Id>` modelled by its membership
function, `accumulated: HashMap<AccountId, CurrentAccumulation>` by its
lookup function. -/
structure Accumulation where
  idempotency : Id → Bool
  accumulated : AccountId → Option CurrentAccumulation

/-- `HashMap::insert` on the `accumulated` table (overwrites any prior
entry at the key). -/
def insertAcc (m : AccountId → Option CurrentAccumulation) (a : AccountId)
    (v : CurrentAccumulation) : AccountId → Option CurrentAccumulation :=
  fun x => if x = a then some v else m x

/-- `HashMap::remove` on the `accumulated` table. -/
def removeAcc (m : AccountId → Option CurrentAccumulation) (a : AccountId) :
    AccountId → Option CurrentAccumulation :=
  fun x => if x = a then none else m x

/-- `HashSet::insert` on the `idempotency` table. -/
def insertId (st : Id → Bool) (i : Id) : Id → Bool :=
  fun x => if x = i then true else st x

/-- Query `get`: read the current record of an account, no side effect. -/
def Accumulation.get (s : Accumulation) (account : AccountId) :
    Option CurrentAccumulation :=
  s.accumulated account

/-- Command `add_account`: rejects an already-present id, otherwise produces
an `AccountAdded` event. Pure: the state is not touched. -/
def Accumulation.add_account (s : Accumulation) (id : AccountId)
    (worked : WorkCounter) : Except Error AccountAdded :=
  if (s.accumulated id).isSome then
    Except.error Error.AccountAlreadyExists
  else
    Except.ok { id := id, worked := worked }

/-- The validation loop of `accumulate`: for each `(id, amount)` of the
distribution, if the account exists in `accumulated` and its checked
addition of the amount fails, return `ExcessiveValue`; accounts absent from
the state are not checked. -/
def checkDistribution (s : Accumulation) :
    List (AccountId × Money) → Except Error Unit
  | [] => Except.ok ()
  | (a, m) :: rest =>
    match s.accumulated a with
    | some existing =>
      match existing.add m with
      | none => Except.error Error.ExcessiveValue
      | some _ => checkDistribution s rest
    | none => checkDistribution s rest

/-- Command `accumulate`: rejects a submission id already in `idempotency`,
then dry-runs the checked additions of the distribution, and on success
produces an `AmountsAccumulated` event carrying the id and the full
distribution. Pure: the state is not touched. -/
def Accumulation.accumulate (s : Accumulation) (id : Id)
    (distribution : List (AccountId × Money)) :
    Except Error AmountsAccumulated :=
  if s.idempotency id then
    Except.error Error.DuplicateSubmission
  else
    match checkDistribution s distribution with
    | Except.error e => Except.error e
    | Except.ok () => Except.ok { id := id, distribution := distribution }

/-- Command `claim`: fails with `NoSuchAccount` when the account is absent,
otherwise produces an `AccumulatedClaimed` event carrying a snapshot of the
current record. Pure: the state is not touched. -/
def Accumulation.claim (s : Accumulation) (account : AccountId) :
    Except Error AccumulatedClaimed :=
  match s.accumulated account with
  | none => Except.error Error.NoSuchAccount
  | some accumulated =>
    Except.ok { account := account, accumulated := accumulated }

/-- One iteration of the applier's loop for `AmountsAccumulated`: read the
existing record (default if absent), checked-add the amount (`none` models
the `unwrap` panic on overflow), insert the submission id into
`idempotency` (the source does this inside the loop), and write back the
updated record. -/
def applyStep (i : Id) (s : Option Accumulation) (p : AccountId × Money) :
    Option Accumulation :=
  match s with
  | none => none
  | some st =>
    match ((st.accumulated p.1).getD CurrentAccumulation.default).add p.2 with
    | none => none
    | some accumulated =>
      some { idempotency := insertId st.idempotency i,
             accumulated := insertAcc st.accumulated p.1 accumulated }

/-- The event applier `apply`, the sole mutator, modelled as a function from
state and event to the next state; `none` models the panic of the `unwrap`
in the `AmountsAccumulated` branch. -/
def Accumulation.apply (s : Accumulation) :
    AccumulationEvent → Option Accumulation
  | AccumulationEvent.AccountAdded e =>
    some { s with
           accumulated := insertAcc s.accumulated e.id
             { amount := Money.zero, worked := e.worked } }
  | AccumulationEvent.AmountsAccumulated e =>
    e.distribution.foldl (applyStep e.id) (some s)
  | AccumulationEvent.AccumulatedClaimed e =>
    some { s with accumulated := removeAcc s.accumulated e.account }

/-- The empty ledger (`Accumulation::new(Default::default(), Default::default())`). -/
def emptyAcc : Accumulation :=
  { idempotency := fun _ => false, accumulated := fun _ => none }

/-- The balance of an account as a natural number, zero if absent. -/
def balanceOf (s : Accumulation) (a : AccountId) : Nat :=
  ((s.accumulated a).getD CurrentAccumulation.default).amount.val

/-- The total delta for account `a` carried by a distribution. -/
def deltaFor (a : AccountId) : List (AccountId × Money) → Nat
  | [] => 0
  | p :: rest => (if p.1 = a then p.2.val else 0) + deltaFor a rest

/-- One accepted-and-applied `accumulate` round: validate the submission
against the current state; if accepted, apply the produced event; `none`
when validation rejects or the applier panics. -/
def acceptedRun (s : Accumulation) :
    List (Id × List (AccountId × Money)) → Option Accumulation
  | [] => some s
  | (i, d) :: rest =>
    match s.accumulate i d with
    | Except.error _ => none
    | Except.ok e =>
      match s.apply (AccumulationEvent.AmountsAccumulated e) with
      | none => none
      | some s' => acceptedRun s' rest

/-! Concrete values and states used by witnesses and counterexamples. -/

/-- A concrete `Money` value of 1 nano. -/
def oneM : Money := ⟨1, by decide⟩

/-- A concrete `Money` value of 5 nanos. -/
def fiveM : Money := ⟨5, by decide⟩

/-- The largest `Money` value. -/
def maxM : Money := ⟨u64Max, Nat.le_refl _⟩

/-- A state whose `idempotency` set holds `[1]` and whose only account, `0`,
sits at the maximal balance. -/
def fullState : Accumulation :=
  { idempotency := fun i => decide (i = [1]),
    accumulated := fun a =>
      if a = 0 then some { amount := maxM, worked := 0 } else none }

/-- A state with one zero-balance account `0` (worked `7`) and an empty
`idempotency` set. -/
def oneAccState : Accumulation :=
  { idempotency := fun _ => false,
    accumulated := fun a =>
      if a = 0 then some { amount := fiveM, worked := 7 } else none }

/-- The state reached from `emptyAcc` by applying the accepted event
`AmountsAccumulated ⟨[1], [(0, fiveM)]⟩`. -/
def afterFive : Accumulation :=
  { idempotency := insertId (fun _ => false) [1],
    accumulated := insertAcc (fun _ => none) 0 { amount := fiveM, worked := 0 } }

/-- The state reached from `emptyAcc` by applying `AccountAdded ⟨0, 7⟩`. -/
def afterAdd : Accumulation :=
  { idempotency := fun _ => false,
    accumulated := insertAcc (fun _ => none) 0 { amount := Money.zero, worked := 7 } }

/-- The state reached from `oneAccState` by applying the claim event on
account `0`. -/
def afterClaim : Accumulation :=
  { idempotency := fun _ => false,
    accumulated := removeAcc oneAccState.accumulated 0 }

/-- Like `fullState` but with an empty `idempotency` set. -/
def fullState2 : Accumulation :=
  { idempotency := fun _ => false,
    accumulated := fun a =>
      if a = 0 then some { amount := maxM, worked := 0 } else none }

/-- A state with no accounts whose `idempotency` set holds `[2]`. -/
def taggedState : Accumulation :=
  { idempotency := fun i => decide (i = [2]),
    accumulated := fun _ => none }

/-- The state reached from `taggedState` by applying `AccountAdded ⟨0, 1⟩`. -/
def taggedAfterAdd : Accumulation :=
  { idempotency := taggedState.idempotency,
    accumulated := insertAcc taggedState.accumulated 0
      { amount := Money.zero, worked := 1 } }

/-! Helper lemmas on the table operations. -/

lemma insertAcc_self (m : AccountId → Option CurrentAccumulation) (a : AccountId)
    (v : CurrentAccumulation) : insertAcc m a v a = some v := by
  simp [insertAcc]

lemma insertAcc_other (m : AccountId → Option CurrentAccumulation) (a : AccountId)
    (v : CurrentAccumulation) (x : AccountId) (h : x ≠ a) : insertAcc m a v x = m x := by
  simp [insertAcc, h]

lemma insertAcc_insertAcc_self (m : AccountId → Option CurrentAccumulation)
    (a : AccountId) (v w : CurrentAccumulation) :
    insertAcc (insertAcc m a v) a w = insertAcc m a w := by
  funext x
  by_cases hx : x = a <;> simp [insertAcc, hx]

lemma insertAcc_comm (m : AccountId → Option CurrentAccumulation) (a b : AccountId)
    (v w : CurrentAccumulation) (hab : a ≠ b) :
    insertAcc (insertAcc m a v) b w = insertAcc (insertAcc m b w) a v := by
  funext x
  by_cases hx : x = b <;> by_cases hy : x = a <;>
    simp_all [insertAcc]

lemma insertId_self (f : Id → Bool) (i : Id) : insertId f i i = true := by
  simp [insertId]

lemma insertId_mono (f : Id → Bool) (i j : Id) (h : f j = true) :
    insertId f i j = true := by
  by_cases hj : j = i <;> simp [insertId, hj, h]

lemma insertId_insertId (f : Id → Bool) (i : Id) :
    insertId (insertId f i) i = insertId f i := by
  funext x
  by_cases hx : x = i <;> simp [insertId, hx]

lemma removeAcc_self (m : AccountId → Option CurrentAccumulation) (a : AccountId) :
    removeAcc m a a = none := by
  simp [removeAcc]

lemma removeAcc_absent (m : AccountId → Option CurrentAccumulation) (a : AccountId)
    (h : m a = none) : removeAcc m a = m := by
  funext x
  by_cases hx : x = a <;> simp [removeAcc, hx, h]

lemma removeAcc_removeAcc (m : AccountId → Option CurrentAccumulation) (a : AccountId) :
    removeAcc (removeAcc m a) a = removeAcc m a := by
  funext x
  by_cases hx : x = a <;> simp [removeAcc, hx]

/-! Arithmetic facts about checked addition. -/

lemma checkedAdd_eq_some (a b : Money) (h : a.val + b.val ≤ u64Max) :
    a.checkedAdd b = some ⟨a.val + b.val, h⟩ := by
  simp [Money.checkedAdd, h]

lemma checkedAdd_eq_none (a b : Money) (h : ¬ a.val + b.val ≤ u64Max) :
    a.checkedAdd b = none := by
  simp [Money.checkedAdd, h]

lemma add_eq_some_iff (r : CurrentAccumulation) (m : Money) :
    (∃ r', r.add m = some r') ↔ r.amount.val + m.val ≤ u64Max := by
  constructor
  · rintro ⟨r', hr'⟩
    by_contra hlt
    simp [CurrentAccumulation.add, checkedAdd_eq_none r.amount m hlt] at hr'
  · intro h
    exact ⟨{ amount := ⟨r.amount.val + m.val, h⟩, worked := r.worked },
      by simp [CurrentAccumulation.add, checkedAdd_eq_some r.amount m h]⟩

lemma add_val_worked (r : CurrentAccumulation) (m : Money) (r' : CurrentAccumulation)
    (h : r.add m = some r') :
    r'.amount.val = r.amount.val + m.val ∧ r'.worked = r.worked := by
  by_cases hle : r.amount.val + m.val ≤ u64Max
  · simp [CurrentAccumulation.add, checkedAdd_eq_some r.amount m hle] at h
    subst h
    exact ⟨rfl, rfl⟩
  · simp [CurrentAccumulation.add, checkedAdd_eq_none r.amount m hle] at h

lemma add_eq_none_iff (r : CurrentAccumulation) (m : Money) :
    r.add m = none ↔ ¬ r.amount.val + m.val ≤ u64Max := by
  constructor
  · intro h hle
    simp [CurrentAccumulation.add, checkedAdd_eq_some r.amount m hle] at h
  · intro h
    simp [CurrentAccumulation.add, checkedAdd_eq_none r.amount m h]

lemma default_add_some (m : Money) :
    CurrentAccumulation.default.add m =
      some { amount := m, worked := 0 } := by
  have h0 : (0 : Nat) + m.val ≤ u64Max := by
    simpa using m.property
  simp [CurrentAccumulation.default, CurrentAccumulation.add, Money.zero,
    checkedAdd_eq_some ⟨0, Nat.zero_le _⟩ m h0]

/-! Facts about the applier's fold. -/

lemma foldl_applyStep_none (i : Id) (d : List (AccountId × Money)) :
    d.foldl (applyStep i) none = none := by
  induction d with
  | nil => rfl
  | cons p rest ih => simpa [applyStep] using ih

lemma applyStep_some_eq (i : Id) (st : Accumulation) (p : AccountId × Money) :
    applyStep i (some st) p =
      match ((st.accumulated p.1).getD CurrentAccumulation.default).add p.2 with
      | none => none
      | some acc => some { idempotency := insertId st.idempotency i,
                           accumulated := insertAcc st.accumulated p.1 acc } := rfl

lemma applyStep_some_elim (i : Id) (st st' : Accumulation) (p : AccountId × Money)
    (h : applyStep i (some st) p = some st') :
    ∃ acc, ((st.accumulated p.1).getD CurrentAccumulation.default).add p.2 = some acc ∧
      st' = { idempotency := insertId st.idempotency i,
              accumulated := insertAcc st.accumulated p.1 acc } := by
  rw [applyStep_some_eq] at h
  split at h
  · exact absurd h (by simp)
  · next acc heq =>
    refine ⟨acc, heq, ?_⟩
    injection h with h
    exact h.symm

lemma foldl_idem_mono (i : Id) (d : List (AccountId × Money)) :
    ∀ st st', d.foldl (applyStep i) (some st) = some st' →
      ∀ j, st.idempotency j = true → st'.idempotency j = true := by
  induction d with
  | nil =>
    intro st st' h j hj
    injection h with h
    exact h ▸ hj
  | cons p rest ih =>
    intro st st' h j hj
    rw [List.foldl_cons] at h
    rcases h1 : applyStep i (some st) p with _ | st1
    · rw [h1, foldl_applyStep_none] at h
      exact absurd h (by simp)
    · rw [h1] at h
      obtain ⟨acc, -, hst1⟩ := applyStep_some_elim i st st1 p h1
      refine ih st1 st' h j ?_
      rw [hst1]
      exact insertId_mono _ i j hj

lemma foldl_idem_inserted (i : Id) (p : AccountId × Money)
    (rest : List (AccountId × Money)) (st st' : Accumulation)
    (h : (p :: rest).foldl (applyStep i) (some st) = some st') :
    st'.idempotency i = true := by
  rw [List.foldl_cons] at h
  rcases h1 : applyStep i (some st) p with _ | st1
  · rw [h1, foldl_applyStep_none] at h
    exact absurd h (by simp)
  · rw [h1] at h
    obtain ⟨acc, -, hst1⟩ := applyStep_some_elim i st st1 p h1
    refine foldl_idem_mono i rest st1 st' h i ?_
    rw [hst1]
    exact insertId_self _ i

lemma applyStep_balance (i : Id) (st st' : Accumulation) (p : AccountId × Money)
    (a : AccountId) (h : applyStep i (some st) p = some st') :
    balanceOf st' a = balanceOf st a + (if p.1 = a then p.2.val else 0) := by
  obtain ⟨acc, hadd, hst⟩ := applyStep_some_elim i st st' p h
  obtain ⟨hval, -⟩ := add_val_worked _ _ _ hadd
  by_cases hpa : p.1 = a
  · subst hpa
    simp only [hst, balanceOf, insertAcc_self, Option.getD_some, if_pos rfl]
    exact hval
  · simp only [hst, balanceOf,
      insertAcc_other st.accumulated p.1 acc a fun hc => hpa hc.symm, if_neg hpa,
      Nat.add_zero]

lemma foldl_balance (i : Id) (a : AccountId) (d : List (AccountId × Money)) :
    ∀ st st', d.foldl (applyStep i) (some st) = some st' →
      balanceOf st' a = balanceOf st a + deltaFor a d := by
  induction d with
  | nil =>
    intro st st' h
    injection h with h
    simp [deltaFor, h]
  | cons p rest ih =>
    intro st st' h
    rw [List.foldl_cons] at h
    rcases h1 : applyStep i (some st) p with _ | st1
    · rw [h1, foldl_applyStep_none] at h
      exact absurd h (by simp)
    · rw [h1] at h
      rw [ih st1 st' h, applyStep_balance i st st1 p a h1]
      simp [deltaFor, Nat.add_assoc]

/-! Facts about the validation loop. -/

lemma checkDistribution_ok_mem (s : Accumulation) (d : List (AccountId × Money))
    (hok : checkDistribution s d = Except.ok ()) (a : AccountId) (m : Money)
    (hmem : (a, m) ∈ d) (r : CurrentAccumulation) (hr : s.accumulated a = some r) :
    ∃ r', r.add m = some r' := by
  induction d with
  | nil => simp at hmem
  | cons p rest ih =>
    rcases p with ⟨b, m'⟩
    rcases List.mem_cons.mp hmem with heq | hmem'
    · injection heq with hb hm
      subst hb; subst hm
      simp only [checkDistribution, hr] at hok
      rcases hadd : r.add m with _ | r'
      · simp [hadd] at hok
      · exact ⟨r', rfl⟩
    · simp only [checkDistribution] at hok
      rcases hb : s.accumulated b with _ | ex
      · simp only [hb] at hok
        exact ih hok hmem'
      · simp only [hb] at hok
        rcases hadd : ex.add m' with _ | ex'
        · simp [hadd] at hok
        · simp only [hadd] at hok
          exact ih hok hmem'

lemma checkDistribution_error_of_over (s : Accumulation) (d : List (AccountId × Money))
    (a : AccountId) (m : Money) (hmem : (a, m) ∈ d) (r : CurrentAccumulation)
    (hr : s.accumulated a = some r) (hover : r.add m = none) :
    checkDistribution s d = Except.error Error.ExcessiveValue := by
  induction d with
  | nil => simp at hmem
  | cons p rest ih =>
    rcases p with ⟨b, m'⟩
    rcases List.mem_cons.mp hmem with heq | hmem'
    · injection heq with hb hm
      subst hb; subst hm
      simp only [checkDistribution, hr, hover]
    · rcases hb : s.accumulated b with _ | ex
      · simp only [checkDistribution, hb]
        exact ih hmem'
      · rcases hadd : ex.add m' with _ | ex'
        · simp only [checkDistribution, hb, hadd]
        · simp only [checkDistribution, hb, hadd]
          exact ih hmem'

lemma accumulate_ok_elim (s : Accumulation) (i : Id) (d : List (AccountId × Money))
    (e : AmountsAccumulated) (h : s.accumulate i d = Except.ok e) :
    s.idempotency i = false ∧ checkDistribution s d = Except.ok () ∧
      e = { id := i, distribution := d } := by
  unfold Accumulation.accumulate at h
  by_cases hdup : s.idempotency i
  · rw [if_pos hdup] at h
    exact absurd h (by simp)
  · rw [if_neg hdup] at h
    refine ⟨by simpa using hdup, ?_, ?_⟩
    · rcases hc : checkDistribution s d with err | u
      · rw [hc] at h
        exact absurd h (by simp)
      · rfl
    · rcases hc : checkDistribution s d with err | u
      · rw [hc] at h
        exact absurd h (by simp)
      · rcases u
        rw [hc] at h
        injection h with h
        exact h.symm

lemma foldl_some_of_checked (i : Id) (s : Accumulation) :
    ∀ (d : List (AccountId × Money)) (st : Accumulation),
      (d.map Prod.fst).Nodup →
      (∀ p ∈ d, ∃ acc,
        ((s.accumulated p.1).getD CurrentAccumulation.default).add p.2 = some acc) →
      (∀ p ∈ d, st.accumulated p.1 = s.accumulated p.1) →
      ∃ st', d.foldl (applyStep i) (some st) = some st' := by
  intro d
  induction d with
  | nil => intro st _ _ _; exact ⟨st, rfl⟩
  | cons p rest ih =>
    intro st hnd hchk hagree
    obtain ⟨acc, hacc⟩ := hchk p (List.mem_cons_self p rest)
    have hbase : st.accumulated p.1 = s.accumulated p.1 :=
      hagree p (List.mem_cons_self p rest)
    have hstep : applyStep i (some st) p =
        some { idempotency := insertId st.idempotency i,
               accumulated := insertAcc st.accumulated p.1 acc } := by
      simp only [applyStep_some_eq, hbase, hacc]
    rw [List.foldl_cons, hstep]
    have hnd' : (p.1 :: rest.map Prod.fst).Nodup := by simpa using hnd
    refine ih _ (List.nodup_cons.mp hnd').2
      (fun q hq => hchk q (List.mem_cons_of_mem _ hq)) (fun q hq => ?_)
    have hqp : q.1 ≠ p.1 := by
      intro hc
      exact (List.nodup_cons.mp hnd').1 (hc ▸ List.mem_map_of_mem Prod.fst hq)
    simp only [insertAcc_other st.accumulated p.1 acc q.1 hqp]
    exact hagree q (List.mem_cons_of_mem _ hq)

/-! Commutativity of the applier's per-entry step. -/

lemma add_eq_dite (v : Nat) (hv : v ≤ u64Max) (w : Nat) (n : Nat) (hn : n ≤ u64Max) :
    CurrentAccumulation.add ⟨⟨v, hv⟩, w⟩ ⟨n, hn⟩ =
      if h : v + n ≤ u64Max then some ⟨⟨v + n, h⟩, w⟩ else none := by
  by_cases h : v + n ≤ u64Max <;>
    simp [CurrentAccumulation.add, Money.checkedAdd, h]

lemma add_add_swap (r : CurrentAccumulation) (m1 m2 : Money) :
    (r.add m1).bind (fun x => x.add m2) = (r.add m2).bind (fun x => x.add m1) := by
  rcases r with ⟨⟨v, hv⟩, w⟩
  rcases m1 with ⟨n1, hn1⟩
  rcases m2 with ⟨n2, hn2⟩
  by_cases h1 : v + n1 ≤ u64Max <;> by_cases h2 : v + n2 ≤ u64Max
  · by_cases h12 : v + n1 + n2 ≤ u64Max
    · have h21 : v + n2 + n1 ≤ u64Max := by omega
      have hcomm : v + n1 + n2 = v + n2 + n1 := Nat.add_right_comm v n1 n2
      simp [add_eq_dite, h1, h2, h12, h21, hcomm]
    · have h21 : ¬ v + n2 + n1 ≤ u64Max := by omega
      simp [add_eq_dite, h1, h2, h12, h21]
  · have h12 : ¬ v + n1 + n2 ≤ u64Max := by omega
    simp [add_eq_dite, h1, h2, h12]
  · have h21 : ¬ v + n2 + n1 ≤ u64Max := by omega
    simp [add_eq_dite, h1, h2, h21]
  · simp [add_eq_dite, h1, h2]

lemma applyStep_none (i : Id) (p : AccountId × Money) :
    applyStep i none p = none := rfl

lemma applyStep_comm_same (i : Id) (st : Accumulation) (k : AccountId) (m1 m2 : Money) :
    applyStep i (applyStep i (some st) (k, m1)) (k, m2) =
      applyStep i (applyStep i (some st) (k, m2)) (k, m1) := by
  have hswap := add_add_swap ((st.accumulated k).getD CurrentAccumulation.default) m1 m2
  rcases hp : ((st.accumulated k).getD CurrentAccumulation.default).add m1 with _ | acc1 <;>
    rcases hq : ((st.accumulated k).getD CurrentAccumulation.default).add m2 with _ | acc1'
  · simp [applyStep_some_eq, applyStep_none, hp, hq]
  · rw [hp, hq] at hswap
    simp only [Option.none_bind, Option.some_bind] at hswap
    simp [applyStep_some_eq, applyStep_none, hp, hq, insertAcc_self, hswap.symm]
  · rw [hp, hq] at hswap
    simp only [Option.none_bind, Option.some_bind] at hswap
    simp [applyStep_some_eq, applyStep_none, hp, hq, insertAcc_self, hswap]
  · rw [hp, hq] at hswap
    simp only [Option.some_bind] at hswap
    rcases h2 : acc1.add m2 with _ | acc2
    · rw [h2] at hswap
      simp [applyStep_some_eq, applyStep_none, hp, hq, insertAcc_self, h2, hswap.symm]
    · rw [h2] at hswap
      simp [applyStep_some_eq, applyStep_none, hp, hq, insertAcc_self, h2, hswap.symm,
        insertId_insertId, insertAcc_insertAcc_self]

lemma applyStep_comm_ne (i : Id) (st : Accumulation) (p q : AccountId × Money)
    (hk : p.1 ≠ q.1) :
    applyStep i (applyStep i (some st) p) q =
      applyStep i (applyStep i (some st) q) p := by
  have hqp : q.1 ≠ p.1 := hk.symm
  rcases hp : ((st.accumulated p.1).getD CurrentAccumulation.default).add p.2 with _ | accp <;>
    rcases hq : ((st.accumulated q.1).getD CurrentAccumulation.default).add q.2 with _ | accq
  · simp [applyStep_some_eq, applyStep_none, hp, hq,
      insertAcc_other st.accumulated p.1, insertAcc_other st.accumulated q.1, hqp, hk]
  · simp [applyStep_some_eq, applyStep_none, hp, hq,
      insertAcc_other st.accumulated q.1 accq p.1 hk, hqp]
  · simp [applyStep_some_eq, applyStep_none, hp, hq,
      insertAcc_other st.accumulated p.1 accp q.1 hqp, hk]
  · simp [applyStep_some_eq, applyStep_none, hp, hq,
      insertAcc_other st.accumulated p.1 accp q.1 hqp,
      insertAcc_other st.accumulated q.1 accq p.1 hk,
      insertId_insertId, insertAcc_comm st.accumulated p.1 q.1 accp accq hk]

lemma applyStep_comm (i : Id) (s : Option Accumulation) (p q : AccountId × Money) :
    applyStep i (applyStep i s p) q = applyStep i (applyStep i s q) p := by
  rcases s with _ | st
  · rfl
  · by_cases hk : p.1 = q.1
    · rcases p with ⟨pa, pm⟩
      rcases q with ⟨qa, qm⟩
      have hk' : pa = qa := hk
      subst hk'
      exact applyStep_comm_same i st pa pm qm
    · exact applyStep_comm_ne i st p q hk

lemma foldl_applyStep_perm (i : Id) {d d' : List (AccountId × Money)}
    (hp : d.Perm d') :
    ∀ s, d.foldl (applyStep i) s = d'.foldl (applyStep i) s := by
  induction hp with
  | nil => intro s; rfl
  | cons x _ ih =>
    intro s
    simp only [List.foldl_cons]
    exact ih _
  | swap x y l =>
    intro s
    simp only [List.foldl_cons]
    rw [applyStep_comm]
  | trans _ _ ih1 ih2 =>
    intro s
    rw [ih1 s, ih2 s]

/-! Shape of the applier on the three event kinds. -/

lemma apply_accountAdded (s : Accumulation) (e : AccountAdded) :
    s.apply (AccumulationEvent.AccountAdded e) =
      some { s with
             accumulated := insertAcc s.accumulated e.id
               { amount := Money.zero, worked := e.worked } } := rfl

lemma apply_amounts (s : Accumulation) (e : AmountsAccumulated) :
    s.apply (AccumulationEvent.AmountsAccumulated e) =
      e.distribution.foldl (applyStep e.id) (some s) := rfl

lemma apply_claimed (s : Accumulation) (e : AccumulatedClaimed) :
    s.apply (AccumulationEvent.AccumulatedClaimed e) =
      some { s with accumulated := removeAcc s.accumulated e.account } := rfl

lemma acceptedRun_balance (a : AccountId) :
    ∀ (evts : List (Id × List (AccountId × Money))) (s sF : Accumulation),
      acceptedRun s evts = some sF →
      balanceOf sF a = balanceOf s a + (evts.map fun e => deltaFor a e.2).sum := by
  intro evts
  induction evts with
  | nil =>
    intro s sF h
    injection h with h
    simp [h]
  | cons ev rest ih =>
    intro s sF h
    rcases ev with ⟨i, d⟩
    simp only [acceptedRun] at h
    rcases hacc : s.accumulate i d with err | e
    · simp [hacc] at h
    · simp only [hacc] at h
      rcases happ : s.apply (AccumulationEvent.AmountsAccumulated e) with _ | s1
      · simp [happ] at h
      · simp only [happ] at h
        obtain ⟨-, -, he⟩ := accumulate_ok_elim s i d e hacc
        subst he
        rw [apply_amounts] at happ
        have hbal : balanceOf s1 a = balanceOf s a + deltaFor a d :=
          foldl_balance i a d s s1 happ
        rw [ih s1 sF h, hbal, List.map_cons, List.sum_cons, Nat.add_assoc]

/-! The claim theorems. -/

/-- C1 (counterexample): with an empty distribution the applier's loop body
never runs, so the submission id is not inserted into `idempotency`: from the
empty state, `accumulate([1], {})` succeeds, applying the produced event
leaves the state unchanged, `[1]` is not in the processed set afterwards, and
a second `accumulate([1], {})` succeeds instead of failing with
`DuplicateSubmission`. -/
theorem empty_distribution_skips_processed :
    Accumulation.accumulate emptyAcc [1] [] =
      Except.ok { id := [1], distribution := [] } ∧
    Accumulation.apply emptyAcc
      (AccumulationEvent.AmountsAccumulated { id := [1], distribution := [] }) =
      some emptyAcc ∧
    emptyAcc.idempotency [1] = false ∧
    Accumulation.accumulate emptyAcc [1] [] ≠
      Except.error Error.DuplicateSubmission :=
  ⟨rfl, rfl, rfl, by simp [Accumulation.accumulate, checkDistribution, emptyAcc]⟩

/-- C1 (amended): for every state, submission id and NONEMPTY distribution,
if `accumulate` succeeds and the produced `AmountsAccumulated` event is
applied, the submission id is afterwards in the processed set and every
subsequent `accumulate` on it fails with `DuplicateSubmission`, regardless
of the second distribution's contents. -/
theorem accumulate_applied_marks_processed (s : Accumulation) (sid : Id)
    (d : List (AccountId × Money)) (e : AmountsAccumulated) (s' : Accumulation)
    (hne : d ≠ [])
    (hok : s.accumulate sid d = Except.ok e)
    (happ : s.apply (AccumulationEvent.AmountsAccumulated e) = some s') :
    s'.idempotency sid = true ∧
      ∀ d', s'.accumulate sid d' = Except.error Error.DuplicateSubmission := by
  obtain ⟨-, -, he⟩ := accumulate_ok_elim s sid d e hok
  subst he
  rw [apply_amounts] at happ
  rcases d with _ | ⟨p, rest⟩
  · exact absurd rfl hne
  · have hin : s'.idempotency sid = true :=
      foldl_idem_inserted sid p rest s s' happ
    exact ⟨hin, fun d' => by simp [Accumulation.accumulate, hin]⟩

/-- C1 (witness): concrete run of the amended claim on the singleton
distribution `{0 ↦ 5}` from the empty state. -/
theorem accumulate_applied_marks_processed_witness :
    afterFive.idempotency [1] = true ∧
    afterFive.accumulate [1] [] = Except.error Error.DuplicateSubmission :=
  ⟨(accumulate_applied_marks_processed emptyAcc [1] [(0, fiveM)]
      { id := [1], distribution := [(0, fiveM)] } afterFive (by simp) rfl rfl).1,
   (accumulate_applied_marks_processed emptyAcc [1] [(0, fiveM)]
      { id := [1], distribution := [(0, fiveM)] } afterFive (by simp) rfl rfl).2 []⟩

/-- C2: over any sequence of accepted-and-applied `AmountsAccumulated`
events, each validated against the state it is applied to, the final
balance of an account that starts at the zero baseline equals the exact sum
of all deltas for it carried by those events. -/
theorem balance_conservation (s0 : Accumulation) (a : AccountId)
    (evts : List (Id × List (AccountId × Money))) (sF : Accumulation)
    (h0 : balanceOf s0 a = 0)
    (hrun : acceptedRun s0 evts = some sF) :
    balanceOf sF a = (evts.map fun e => deltaFor a e.2).sum := by
  rw [acceptedRun_balance a evts s0 sF hrun, h0, Nat.zero_add]

/-- C2 (witness): one accepted event crediting account `0` with 5 nanos
from the empty state ends with balance 5. -/
theorem balance_conservation_witness :
    balanceOf afterFive 0 =
      ([([1], [(0, fiveM)])].map fun e => deltaFor 0 e.2).sum :=
  balance_conservation emptyAcc 0 [([1], [(0, fiveM)])] afterFive rfl rfl

/-- C3 (counterexample): the duplicate-submission check runs first, so a
state whose processed set already holds the submission id fails with
`DuplicateSubmission` even though account `0` sits at the maximal balance
and the distribution's delta for it would overflow. -/
theorem duplicate_takes_precedence_over_overflow :
    fullState.accumulated 0 = some { amount := maxM, worked := 0 } ∧
    CurrentAccumulation.add { amount := maxM, worked := 0 } oneM = none ∧
    Accumulation.accumulate fullState [1] [(0, oneM)] =
      Except.error Error.DuplicateSubmission :=
  ⟨rfl, rfl, rfl⟩

/-- C3 (amended): provided the submission id is not already processed, an
`accumulate` whose distribution holds an existing account whose checked
addition would overflow fails with `ExcessiveValue` (validation is a pure
function of the state, so the state is unchanged by construction). -/
theorem overflow_rejected (s : Accumulation) (sid : Id)
    (d : List (AccountId × Money)) (a : AccountId) (m : Money)
    (r : CurrentAccumulation)
    (hdup : s.idempotency sid = false)
    (hmem : (a, m) ∈ d)
    (hacct : s.accumulated a = some r)
    (hover : r.add m = none) :
    s.accumulate sid d = Except.error Error.ExcessiveValue := by
  simp [Accumulation.accumulate, hdup,
    checkDistribution_error_of_over s d a m hmem r hacct hover]

/-- C3 (witness): same overflow scenario as the counterexample but with an
empty processed set: `ExcessiveValue` is returned. -/
theorem overflow_rejected_witness :
    Accumulation.accumulate fullState2 [1] [(0, oneM)] =
      Except.error Error.ExcessiveValue :=
  overflow_rejected fullState2 [1] [(0, oneM)] 0 oneM
    { amount := maxM, worked := 0 } rfl (by simp) rfl rfl

/-- C4: an `AmountsAccumulated` event produced by a successful validation
against a state applies to that same state without the checked addition
ever failing: the applier's `unwrap` is unreachable (accounts absent from
the state have a zero baseline, and zero plus a representable delta cannot
overflow). -/
theorem apply_infallible_after_validation (s : Accumulation) (sid : Id)
    (d : List (AccountId × Money)) (e : AmountsAccumulated)
    (hnd : (d.map Prod.fst).Nodup)
    (hok : s.accumulate sid d = Except.ok e) :
    ∃ s', s.apply (AccumulationEvent.AmountsAccumulated e) = some s' := by
  obtain ⟨-, hchk, he⟩ := accumulate_ok_elim s sid d e hok
  subst he
  rw [apply_amounts]
  refine foldl_some_of_checked sid s d s hnd (fun p hp => ?_) (fun p hp => rfl)
  rcases hb : s.accumulated p.1 with _ | r
  · simp only [hb, Option.getD_none]
    exact ⟨_, default_add_some p.2⟩
  · simp only [hb, Option.getD_some]
    exact checkDistribution_ok_mem s d hchk p.1 p.2 hp r hb

/-- C4 (witness): the accepted singleton distribution `{0 ↦ 5}` applies
successfully to the empty state. -/
theorem apply_infallible_after_validation_witness :
    ∃ s', emptyAcc.apply (AccumulationEvent.AmountsAccumulated
      { id := [1], distribution := [(0, fiveM)] }) = some s' :=
  apply_infallible_after_validation emptyAcc [1] [(0, fiveM)]
    { id := [1], distribution := [(0, fiveM)] } (by simp) rfl

/-- C5: `claim` succeeds with a snapshot of the current record exactly when
the account is present (else `NoSuchAccount`), and after the produced claim
event is applied, `get` returns absent and a second `claim` fails with
`NoSuchAccount`. -/
theorem claim_correct (s : Accumulation) (a : AccountId) :
    (s.accumulated a = none → s.claim a = Except.error Error.NoSuchAccount) ∧
    (∀ r, s.accumulated a = some r →
      s.claim a = Except.ok { account := a, accumulated := r } ∧
      ∀ s', s.apply (AccumulationEvent.AccumulatedClaimed
          { account := a, accumulated := r }) = some s' →
        s'.get a = none ∧ s'.claim a = Except.error Error.NoSuchAccount) := by
  constructor
  · intro h
    simp [Accumulation.claim, h]
  · intro r hr
    refine ⟨by simp [Accumulation.claim, hr], fun s' hs' => ?_⟩
    rw [apply_claimed] at hs'
    injection hs' with hs'
    subst hs'
    constructor
    · simp [Accumulation.get, removeAcc]
    · simp [Accumulation.claim, removeAcc]

/-- C5 (witness): claiming account `0` of `oneAccState` returns its record,
and after applying the claim event the account is absent and unclaimable. -/
theorem claim_correct_witness :
    oneAccState.claim 0 =
      Except.ok { account := 0,
                  accumulated := { amount := fiveM, worked := 7 } } ∧
    afterClaim.get 0 = none ∧
    afterClaim.claim 0 = Except.error Error.NoSuchAccount :=
  ⟨((claim_correct oneAccState 0).2 { amount := fiveM, worked := 7 } rfl).1,
   (((claim_correct oneAccState 0).2 { amount := fiveM, worked := 7 } rfl).2
      afterClaim rfl).1,
   (((claim_correct oneAccState 0).2 { amount := fiveM, worked := 7 } rfl).2
      afterClaim rfl).2⟩

/-- C6: `add_account` succeeds with an `AccountAdded` event carrying the id
and work counter when the account is absent and fails with
`AccountAlreadyExists` when present; after the event is applied,
registering the id again fails with `AccountAlreadyExists`. -/
theorem register_unique (s : Accumulation) (a : AccountId) (w : WorkCounter) :
    ((s.accumulated a).isSome →
      s.add_account a w = Except.error Error.AccountAlreadyExists) ∧
    (s.accumulated a = none →
      s.add_account a w = Except.ok { id := a, worked := w } ∧
      ∀ s', s.apply (AccumulationEvent.AccountAdded { id := a, worked := w }) =
          some s' →
        ∀ w', s'.add_account a w' = Except.error Error.AccountAlreadyExists) := by
  constructor
  · intro h
    simp [Accumulation.add_account, h]
  · intro h
    refine ⟨by simp [Accumulation.add_account, h], fun s' hs' w' => ?_⟩
    rw [apply_accountAdded] at hs'
    injection hs' with hs'
    subst hs'
    simp [Accumulation.add_account, insertAcc_self]

/-- C6 (witness): registering account `0` in the empty state succeeds;
after applying the event, registering `0` again fails. -/
theorem register_unique_witness :
    emptyAcc.add_account 0 7 = Except.ok { id := 0, worked := 7 } ∧
    afterAdd.add_account 0 9 = Except.error Error.AccountAlreadyExists :=
  ⟨((register_unique emptyAcc 0 7).2 rfl).1,
   ((register_unique emptyAcc 0 7).2 rfl).2 afterAdd rfl 9⟩

/-- C7: no apply step removes a submission id from the processed set: any
id present in `idempotency` before applying any event is still present
afterwards. -/
theorem processed_monotone (s : Accumulation) (ev : AccumulationEvent)
    (s' : Accumulation) (i : Id)
    (happ : s.apply ev = some s')
    (hin : s.idempotency i = true) :
    s'.idempotency i = true := by
  cases ev with
  | AccountAdded e =>
    rw [apply_accountAdded] at happ
    injection happ with happ
    subst happ
    exact hin
  | AmountsAccumulated e =>
    rw [apply_amounts] at happ
    exact foldl_idem_mono e.id e.distribution s s' happ i hin
  | AccumulatedClaimed e =>
    rw [apply_claimed] at happ
    injection happ with happ
    subst happ
    exact hin

/-- C7 (witness): the id `[2]`, present before applying an `AccountAdded`
event to `taggedState`, is still present afterwards. -/
theorem processed_monotone_witness : taggedAfterAdd.idempotency [2] = true :=
  processed_monotone taggedState
    (AccumulationEvent.AccountAdded { id := 0, worked := 1 })
    taggedAfterAdd [2] rfl rfl

/-- C8: applying `AccountAdded(id, worked)` unconditionally installs the
fresh record `{balance := zero, worked}` at `id` (overwriting whatever was
there), leaves every other account untouched, and leaves the processed set
unchanged. -/
theorem account_added_overwrites (s : Accumulation) (e : AccountAdded)
    (s' : Accumulation)
    (happ : s.apply (AccumulationEvent.AccountAdded e) = some s') :
    s'.accumulated e.id = some { amount := Money.zero, worked := e.worked } ∧
    (∀ b, b ≠ e.id → s'.accumulated b = s.accumulated b) ∧
    s'.idempotency = s.idempotency := by
  rw [apply_accountAdded] at happ
  injection happ with happ
  subst happ
  exact ⟨insertAcc_self _ _ _, fun b hb => insertAcc_other _ _ _ _ hb, rfl⟩

/-- C8 (witness): applying `AccountAdded ⟨0, 7⟩` to a state where `0`
already holds a nonzero balance resets it to the fresh zero record. -/
theorem account_added_overwrites_witness :
    ∃ s', oneAccState.apply
        (AccumulationEvent.AccountAdded { id := 0, worked := 7 }) = some s' ∧
      s'.accumulated 0 = some { amount := Money.zero, worked := 7 } ∧
      s'.accumulated 1 = oneAccState.accumulated 1 :=
  ⟨{ oneAccState with
     accumulated := insertAcc oneAccState.accumulated 0
       { amount := Money.zero, worked := 7 } },
   rfl,
   (account_added_overwrites oneAccState { id := 0, worked := 7 } _ rfl).1,
   (account_added_overwrites oneAccState { id := 0, worked := 7 } _ rfl).2.1 1
     (by simp)⟩

/-- C9: the state produced by applying an `AmountsAccumulated` event does
not depend on the order in which the distribution's entries are processed:
for a distribution with distinct keys, any permutation of the entries
yields the same resulting state. -/
theorem amounts_order_invariant (s : Accumulation) (i : Id)
    (d d' : List (AccountId × Money))
    (hperm : d.Perm d')
    (_hnd : (d.map Prod.fst).Nodup) :
    s.apply (AccumulationEvent.AmountsAccumulated
      { id := i, distribution := d }) =
    s.apply (AccumulationEvent.AmountsAccumulated
      { id := i, distribution := d' }) := by
  rw [apply_amounts, apply_amounts]
  exact foldl_applyStep_perm i hperm (some s)

/-- C9 (witness): the two orders of the distribution `{0 ↦ 1, 1 ↦ 5}`
produce the same state from the empty state. -/
theorem amounts_order_invariant_witness :
    emptyAcc.apply (AccumulationEvent.AmountsAccumulated
      { id := [1], distribution := [(0, oneM), (1, fiveM)] }) =
    emptyAcc.apply (AccumulationEvent.AmountsAccumulated
      { id := [1], distribution := [(1, fiveM), (0, oneM)] }) :=
  amounts_order_invariant emptyAcc [1] [(0, oneM), (1, fiveM)]
    [(1, fiveM), (0, oneM)] (List.Perm.swap (1, fiveM) (0, oneM) [])
    (by simp)

/-- C10: applying an `AccumulatedClaimed` event is idempotent: on a state
where the named account is absent the removal is a no-op (never an error),
so applying the same claim event twice equals applying it once. -/
theorem claimed_idempotent (s : Accumulation) (e : AccumulatedClaimed) :
    (s.accumulated e.account = none →
      s.apply (AccumulationEvent.AccumulatedClaimed e) = some s) ∧
    (∀ s', s.apply (AccumulationEvent.AccumulatedClaimed e) = some s' →
      s'.apply (AccumulationEvent.AccumulatedClaimed e) = some s') := by
  constructor
  · intro h
    rw [apply_claimed, removeAcc_absent s.accumulated e.account h]
  · intro s' hs'
    rw [apply_claimed] at hs'
    injection hs' with hs'
    subst hs'
    rw [apply_claimed]
    simp only [removeAcc_removeAcc]

/-- C10 (witness): claiming the absent account `0` of the empty state is a
no-op, and re-applying the claim event that emptied `oneAccState` leaves
its result state fixed. -/
theorem claimed_idempotent_witness :
    emptyAcc.apply (AccumulationEvent.AccumulatedClaimed
      { account := 0, accumulated := { amount := fiveM, worked := 7 } }) =
      some emptyAcc ∧
    afterClaim.apply (AccumulationEvent.AccumulatedClaimed
      { account := 0, accumulated := { amount := fiveM, worked := 7 } }) =
      some afterClaim :=
  ⟨(claimed_idempotent emptyAcc
      { account := 0, accumulated := { amount := fiveM, worked := 7 } }).1 rfl,
   (claimed_idempotent oneAccState
      { account := 0, accumulated := { amount := fiveM, worked := 7 } }).2
     afterClaim rfl⟩

end SafeFarming
